import Mathlib

/-!
# Verification of the yarrs RESP frame decoder

Shallow embedding of `src/protocol/mod.rs` and `src/protocol/error.rs`
(the `Frame` type, `Frame::parse`, and the byte/line primitives
`read_u8`, `read_line`, `read_line_simple`, `read_from_line`), together
with theorems settling the specification claims about them.

Modelling conventions:
* A Rust `Cursor<&[u8]>` is a byte list plus a position (`Nat`); every
  primitive returns its result together with the final cursor position.
* Rust panics (`todo!()`, arithmetic underflow, out-of-bounds indexing)
  are modelled by an explicit `Outcome.panic` constructor.
* Machine integers are modelled as `Int` with the explicit range checks
  that `i32::from_str` / `i64::from_str` perform.
* `f64` parsing only ever feeds `Frame::Double`, whose numeric value no
  claim inspects, so a double is modelled by its on-wire text and
  `f64::from_str` by the textual grammar documented for it.
-/

namespace Yarrs

/-- Embeds `FrameParsingError` from `src/protocol/error.rs`: `Incomplete`,
or `Other` wrapping a human-readable message (the `From` impls in
`error.rs` produce the messages `"invalid frame format"`,
`"invalid integer format"`, `"invalid double format"`, and the inline
`"invalid bulk string size"`). -/
inductive FrameParsingError where
  | Incomplete : FrameParsingError
  | Other : String → FrameParsingError
deriving DecidableEq

/-- Result of a decoding step on a cursor: a value plus the cursor's final
position, an error plus the cursor's final position, or a Rust panic. -/
inductive Outcome (α : Type) where
  | ok : α → Nat → Outcome α
  | err : FrameParsingError → Nat → Outcome α
  | panic : Outcome α
deriving DecidableEq

/-- `true` iff the outcome is the `Incomplete` error (at any position). -/
def Outcome.isIncomplete {α : Type} : Outcome α → Bool
  | .err .Incomplete _ => true
  | _ => false

/-! ## UTF-8 decoding (Rust `String::from_utf8`)

Strict UTF-8: continuation bytes `0x80..0xBF`, no overlong forms, no
surrogate code points, nothing above `U+10FFFF` — exactly what
`String::from_utf8` accepts. -/

/-- Is `b` a UTF-8 continuation byte (`0x80..0xBF`)? -/
def utf8Cont (b : UInt8) : Bool := 128 ≤ b.toNat && b.toNat ≤ 191

/-- Strict UTF-8 decoding of a byte list into characters; `none` on any
ill-formed sequence, exactly as `String::from_utf8` rejects it. -/
def utf8DecodeList : List UInt8 → Option (List Char)
  | [] => some []
  | b :: rest =>
    let n := b.toNat
    if n < 128 then
      (utf8DecodeList rest).map (fun cs => Char.ofNat n :: cs)
    else if n < 194 then
      none
    else if n < 224 then
      match rest with
      | c1 :: rest2 =>
        if utf8Cont c1 then
          (utf8DecodeList rest2).map
            (fun cs => Char.ofNat ((n - 192) * 64 + (c1.toNat - 128)) :: cs)
        else none
      | [] => none
    else if n < 240 then
      match rest with
      | c1 :: c2 :: rest2 =>
        if utf8Cont c1 && utf8Cont c2 then
          let cp := (n - 224) * 4096 + (c1.toNat - 128) * 64 + (c2.toNat - 128)
          if 2048 ≤ cp && !(55296 ≤ cp && cp ≤ 57343) then
            (utf8DecodeList rest2).map (fun cs => Char.ofNat cp :: cs)
          else none
        else none
      | _ => none
    else if n ≤ 244 then
      match rest with
      | c1 :: c2 :: c3 :: rest2 =>
        if utf8Cont c1 && utf8Cont c2 && utf8Cont c3 then
          let cp := (n - 240) * 262144 + (c1.toNat - 128) * 4096 +
            (c2.toNat - 128) * 64 + (c3.toNat - 128)
          if 65536 ≤ cp && cp ≤ 1114111 then
            (utf8DecodeList rest2).map (fun cs => Char.ofNat cp :: cs)
          else none
        else none
      | _ => none
    else none

/-- `String::from_utf8` on a byte list. -/
def utf8Decode? (l : List UInt8) : Option String :=
  (utf8DecodeList l).map String.mk

/-! ## Integer parsing (Rust `<iN as FromStr>::from_str`) -/

/-- Value of an ASCII decimal digit, `none` for any other character. -/
def digitVal? (c : Char) : Option Nat :=
  if 48 ≤ c.toNat ∧ c.toNat ≤ 57 then some (c.toNat - 48) else none

/-- Accumulates the value of a digit string; `none` on a non-digit. -/
def digitsValAux : List Char → Nat → Option Nat
  | [], acc => some acc
  | c :: rest, acc =>
    match digitVal? c with
    | some d => digitsValAux rest (acc * 10 + d)
    | none => none

/-- Value of a non-empty all-digit string, `none` otherwise. -/
def digitsVal : List Char → Option Nat
  | [] => none
  | c :: rest => digitsValAux (c :: rest) 0

/-- Rust integer grammar: optional leading `+`/`-`, then one or more
digits; the unbounded value (range checks are per-type). -/
def parseSignDigits : List Char → Option Int
  | [] => none
  | c :: rest =>
    if c = '+' then (digitsVal rest).map (fun m => (m : Int))
    else if c = '-' then (digitsVal rest).map (fun m => -(m : Int))
    else (digitsVal (c :: rest)).map (fun m => (m : Int))

/-- Rust `from_str` for a bounded signed integer type: grammar plus the
range check (out-of-range well-formed numerals are errors). -/
def intFromStrRange (cs : List Char) (lo hi : Int) : Option Int :=
  match parseSignDigits cs with
  | some v => if lo ≤ v ∧ v ≤ hi then some v else none
  | none => none

/-- `<i64 as FromStr>::from_str`. -/
def i64FromStr (cs : List Char) : Option Int :=
  intFromStrRange cs (-9223372036854775808) 9223372036854775807

/-- `<i32 as FromStr>::from_str`. -/
def i32FromStr (cs : List Char) : Option Int :=
  intFromStrRange cs (-2147483648) 2147483647

/-! ## Float text grammar (Rust `<f64 as FromStr>::from_str`)

Only validity matters to the decoder's control flow, so this is the
documented grammar of `f64::from_str` as a recognizer. -/

/-- ASCII decimal digit test. -/
def isDigitChar (c : Char) : Bool := 48 ≤ c.toNat && c.toNat ≤ 57

/-- All characters are ASCII digits. -/
def allDigits (cs : List Char) : Bool := cs.all isDigitChar

/-- Drop one optional leading `+`/`-` sign. -/
def stripSign : List Char → List Char
  | [] => []
  | c :: rest => if c = '+' ∨ c = '-' then rest else c :: rest

/-- Split at the first character satisfying `p`: the part before it and,
when found, the part after it. -/
def splitAtChar (p : Char → Bool) : List Char → List Char × Option (List Char)
  | [] => ([], none)
  | c :: rest =>
    if p c then ([], some rest)
    else
      let r := splitAtChar p rest
      (c :: r.1, r.2)

/-- Mantissa grammar: `Digit+ | Digit+ '.' Digit* | Digit* '.' Digit+`. -/
def validMantissa (cs : List Char) : Bool :=
  let r := splitAtChar (fun c => c = '.') cs
  match r.2 with
  | none => allDigits cs && !cs.isEmpty
  | some frac =>
    allDigits r.1 && allDigits frac && (!r.1.isEmpty || !frac.isEmpty)

/-- Exponent-part grammar (after the `e`/`E`): `Sign? Digit+`. -/
def validExpPart (cs : List Char) : Bool :=
  let d := stripSign cs
  allDigits d && !d.isEmpty

/-- Number grammar: mantissa, optionally followed by `e`/`E` exponent. -/
def validNumberText (cs : List Char) : Bool :=
  let r := splitAtChar (fun c => c = 'e' ∨ c = 'E') cs
  match r.2 with
  | none => validMantissa cs
  | some ex => validMantissa r.1 && validExpPart ex

/-- The full documented grammar of `f64::from_str`:
`Sign? ('inf' | 'infinity' | 'nan' | Number)`, case-insensitive
keywords. -/
def isValidF64Text (cs : List Char) : Bool :=
  let body := stripSign cs
  let lower := body.map Char.toLower
  lower == ['i', 'n', 'f'] ||
  lower == ['i', 'n', 'f', 'i', 'n', 'i', 't', 'y'] ||
  lower == ['n', 'a', 'n'] ||
  validNumberText body

/-! ## Byte and line primitives (`src/protocol/mod.rs`) -/

/-- `read_u8`: `Cursor::read_exact` into one byte. Succeeds with the byte
at the position (advancing by one); with no byte remaining it fails with
`Incomplete`, position unchanged. -/
def read_u8 (buf : List UInt8) (pos : Nat) : Outcome UInt8 :=
  if pos < buf.length then .ok (buf.getD pos 0) (pos + 1)
  else .err .Incomplete pos

/-- The loop body's test in `read_line`:
`buf.get_ref()[i] == b'\r' && buf.get_ref()[i + 1] == b'\n'`. -/
def crlfAt (buf : List UInt8) (i : Nat) : Bool :=
  buf.getD i 0 == 13 && buf.getD (i + 1) 0 == 10

/-- Fuel-driven scan implementing `for i in start..end` of `read_line`:
the first `i` in `[i, i + fuel)` with `crlfAt buf i`. -/
def findCRLFAux (buf : List UInt8) : Nat → Nat → Option Nat
  | _, 0 => none
  | i, fuel + 1 => if crlfAt buf i then some i else findCRLFAux buf (i + 1) fuel

/-- First index `i` in `[s, e)` with `buf[i] = '\r'` and `buf[i+1] = '\n'`. -/
def findCRLF (buf : List UInt8) (s e : Nat) : Option Nat :=
  findCRLFAux buf s (e - s)

/-- `read_line`: scans `start..(len - 1)` for the delimiter; on success
returns the bytes strictly between `start` and the delimiter and sets the
position past the delimiter; otherwise fails with `Incomplete`, position
unchanged. On an empty buffer `buf.get_ref().len() - 1` underflows (and
the subsequent indexing is out of bounds), a Rust panic. -/
def read_line (buf : List UInt8) (pos : Nat) : Outcome (List UInt8) :=
  if buf.length = 0 then .panic
  else
    match findCRLF buf pos (buf.length - 1) with
    | some i => .ok ((buf.take i).drop pos) (i + 2)
    | none => .err .Incomplete pos

/-- `read_line_simple`: one line decoded as UTF-8 text; a `FromUtf8Error`
maps to `Other "invalid frame format"` (per `error.rs`). -/
def read_line_simple (buf : List UInt8) (pos : Nat) : Outcome String :=
  match read_line buf pos with
  | .ok l q =>
    match utf8Decode? l with
    | some s => .ok s q
    | none => .err (.Other "invalid frame format") q
  | .err e q => .err e q
  | .panic => .panic

/-- `read_from_line::<i64>`: UTF-8 decode then `i64` parse; a
`ParseIntError` maps to `Other "invalid integer format"`. -/
def read_i64_line (buf : List UInt8) (pos : Nat) : Outcome Int :=
  match read_line_simple buf pos with
  | .ok s q =>
    match i64FromStr s.data with
    | some v => .ok v q
    | none => .err (.Other "invalid integer format") q
  | .err e q => .err e q
  | .panic => .panic

/-- `read_from_line::<i32>` (the Bulk length line). -/
def read_i32_line (buf : List UInt8) (pos : Nat) : Outcome Int :=
  match read_line_simple buf pos with
  | .ok s q =>
    match i32FromStr s.data with
    | some v => .ok v q
    | none => .err (.Other "invalid integer format") q
  | .err e q => .err e q
  | .panic => .panic

/-- `read_from_line::<f64>`: a `ParseFloatError` maps to
`Other "invalid double format"`; the double is kept as its text. -/
def read_f64_line (buf : List UInt8) (pos : Nat) : Outcome String :=
  match read_line_simple buf pos with
  | .ok s q =>
    if isValidF64Text s.data then .ok s q
    else .err (.Other "invalid double format") q
  | .err e q => .err e q
  | .panic => .panic

/-- The `Frame` enum. `Double` carries the on-wire text of the float (see
the module comment); `Bulk` carries the owned copied-out bytes. -/
inductive Frame where
  | Simple : String → Frame
  | Error : String → Frame
  | Integer : Int → Frame
  | Double : String → Frame
  | Bulk : List UInt8 → Frame
  | Null : Frame
deriving DecidableEq

/-- `Frame::parse`: one tag byte selects the variant; `*`, `#`, `(`, `!`,
`=`, `%`, `|`, `>` and every other unlisted tag hit `todo!()`, a panic. -/
def Frame.parse (buf : List UInt8) (pos : Nat) : Outcome Frame :=
  match read_u8 buf pos with
  | .err e p => .err e p
  | .panic => .panic
  | .ok b p =>
    if b = 43 then
      match read_line_simple buf p with
      | .ok s q => .ok (.Simple s) q
      | .err e q => .err e q
      | .panic => .panic
    else if b = 45 then
      match read_line_simple buf p with
      | .ok s q => .ok (.Error s) q
      | .err e q => .err e q
      | .panic => .panic
    else if b = 58 then
      match read_i64_line buf p with
      | .ok v q => .ok (.Integer v) q
      | .err e q => .err e q
      | .panic => .panic
    else if b = 46 then
      match read_f64_line buf p with
      | .ok s q => .ok (.Double s) q
      | .err e q => .err e q
      | .panic => .panic
    else if b = 36 then
      match read_i32_line buf p with
      | .err e q => .err e q
      | .panic => .panic
      | .ok size q =>
        if 0 ≤ size then
          if buf.length < q + size.toNat + 2 then .err .Incomplete q
          else .ok (.Bulk ((buf.take (q + size.toNat)).drop q)) (q + size.toNat + 2)
        else if size = -1 then .ok .Null q
        else .err (.Other "invalid bulk string size") q
    else if b = 95 then .ok .Null p
    else .panic

/-- No two adjacent bytes of the list form the delimiter `\r\n`
(`13, 10`); such a list never contains the delimiter. -/
def noPair : List UInt8 → Bool
  | [] => true
  | [_] => true
  | a :: b :: rest => !(a == 13 && b == 10) && noPair (b :: rest)

/-- The Bulk length line exactly as the decoder reads it: UTF-8 decode,
then `i32` parse. -/
def i32Line (body : List UInt8) : Option Int :=
  match utf8Decode? body with
  | some s => i32FromStr s.data
  | none => none

/-- The Integer line is UTF-8 and parses as an `i64`. -/
def i64LineOk (body : List UInt8) : Bool :=
  match utf8Decode? body with
  | some s => (i64FromStr s.data).isSome
  | none => false

/-- The Double line is UTF-8 and matches the `f64::from_str` grammar. -/
def f64LineOk (body : List UInt8) : Bool :=
  match utf8Decode? body with
  | some s => isValidF64Text s.data
  | none => false

/-- Complete, valid wire encodings of a single frame, following the wire
format of §6 of the spec (`+<text>\r\n`, `-<text>\r\n`,
`:<signed-int>\r\n`, `.<signed-float>\r\n`,
`$<length>\r\n<length bytes>\r\n` with length ≥ 0, `$-1\r\n`, `_\r\n`).
A line's content never contains the delimiter (the first delimiter
terminates the line), hence the `noPair` side conditions. -/
inductive ValidFrameEncoding : List UInt8 → Prop where
  | simple (body : List UInt8) (hnp : noPair body = true)
      (hutf : (utf8Decode? body).isSome = true) :
      ValidFrameEncoding (43 :: (body ++ [13, 10]))
  | error (body : List UInt8) (hnp : noPair body = true)
      (hutf : (utf8Decode? body).isSome = true) :
      ValidFrameEncoding (45 :: (body ++ [13, 10]))
  | integer (body : List UInt8) (hnp : noPair body = true)
      (hok : i64LineOk body = true) :
      ValidFrameEncoding (58 :: (body ++ [13, 10]))
  | double (body : List UInt8) (hnp : noPair body = true)
      (hok : f64LineOk body = true) :
      ValidFrameEncoding (46 :: (body ++ [13, 10]))
  | bulk (lenBody payload : List UInt8) (hnp : noPair lenBody = true)
      (hlen : i32Line lenBody = some (payload.length : Int)) :
      ValidFrameEncoding (36 :: (lenBody ++ 13 :: 10 :: (payload ++ [13, 10])))
  | nullDollar : ValidFrameEncoding [36, 45, 49, 13, 10]
  | nullBare : ValidFrameEncoding [95, 13, 10]

example : Frame.parse [43, 79, 75, 13, 10] 0 = .ok (.Simple "OK") 5 := by decide
example : Frame.parse [36, 53, 13, 10, 104, 101, 108, 108, 111, 13, 10] 0 =
    .ok (.Bulk [104, 101, 108, 108, 111]) 11 := by decide
example : Frame.parse [58, 45, 50, 48, 13, 10] 0 = .ok (.Integer (-20)) 6 := by decide
example : Frame.parse [46, 49, 101, 45, 49, 13, 10] 0 = .ok (.Double "1e-1") 7 := by decide
example : Frame.parse [95, 13, 10] 0 = .ok .Null 1 := by decide
example : Frame.parse [36, 45, 49, 13, 10] 0 = .ok .Null 5 := by decide
example : Frame.parse [42, 13, 10] 0 = .panic := by decide
example : Frame.parse [] 0 = .err .Incomplete 0 := by decide
example : Frame.parse [43, 79, 75, 13] 0 = .err .Incomplete 1 := by decide
example : Frame.parse [58, 97, 13, 10] 0 = .err (.Other "invalid integer format") 4 := by
  decide
example : Frame.parse [43, 255, 13, 10] 0 = .err (.Other "invalid frame format") 4 := by
  decide
example : read_line [] 0 = .panic := by decide

/-! ## Characterizations of the scanning primitives -/

theorem findCRLFAux_eq_some {buf : List UInt8} {s fuel i : Nat} :
    findCRLFAux buf s fuel = some i ↔
      s ≤ i ∧ i < s + fuel ∧ crlfAt buf i = true ∧
        ∀ j, s ≤ j → j < i → crlfAt buf j = false := by
  induction fuel generalizing s with
  | zero =>
    simp only [findCRLFAux, Nat.add_zero]
    constructor
    · intro h; cases h
    · rintro ⟨h1, h2, -, -⟩; omega
  | succ fuel ih =>
    rw [findCRLFAux]
    by_cases h : crlfAt buf s = true
    · rw [if_pos h]
      constructor
      · intro hsome
        injection hsome with hsi
        subst hsi
        exact ⟨Nat.le_refl s, by omega, h, fun j hj1 hj2 => absurd hj2 (by omega)⟩
      · rintro ⟨h1, h2, h3, h4⟩
        have his : i = s := by
          by_contra hne
          have hmin := h4 s (Nat.le_refl s) (by omega)
          rw [h] at hmin
          cases hmin
        subst his
        rfl
    · rw [if_neg h, ih]
      have hfs : crlfAt buf s = false := by rwa [Bool.not_eq_true] at h
      constructor
      · rintro ⟨h1, h2, h3, h4⟩
        refine ⟨by omega, by omega, h3, fun j hj1 hj2 => ?_⟩
        rcases Nat.eq_or_lt_of_le hj1 with hjs | hjs
        · rw [← hjs]; exact hfs
        · exact h4 j hjs hj2
      · rintro ⟨h1, h2, h3, h4⟩
        have hne : i ≠ s := by
          intro hEq
          rw [hEq, hfs] at h3
          cases h3
        refine ⟨by omega, by omega, h3, fun j hj1 hj2 => h4 j (by omega) hj2⟩

theorem findCRLFAux_eq_none {buf : List UInt8} {s fuel : Nat} :
    findCRLFAux buf s fuel = none ↔
      ∀ j, s ≤ j → j < s + fuel → crlfAt buf j = false := by
  induction fuel generalizing s with
  | zero =>
    simp only [findCRLFAux, Nat.add_zero]
    constructor
    · intro _ j h1 h2; exact absurd h2 (by omega)
    · intro _; trivial
  | succ fuel ih =>
    rw [findCRLFAux]
    by_cases h : crlfAt buf s = true
    · rw [if_pos h]
      constructor
      · intro hnone; cases hnone
      · intro hall
        have := hall s (Nat.le_refl s) (by omega)
        rw [h] at this
        cases this
    · rw [if_neg h, ih]
      have hfs : crlfAt buf s = false := by rwa [Bool.not_eq_true] at h
      constructor
      · intro hall j hj1 hj2
        rcases Nat.eq_or_lt_of_le hj1 with hjs | hjs
        · rw [← hjs]; exact hfs
        · exact hall j hjs (by omega)
      · intro hall j hj1 hj2
        exact hall j (by omega) (by omega)

theorem findCRLF_eq_some {buf : List UInt8} {s e i : Nat} :
    findCRLF buf s e = some i ↔
      s ≤ i ∧ i < e ∧ crlfAt buf i = true ∧
        ∀ j, s ≤ j → j < i → crlfAt buf j = false := by
  unfold findCRLF
  rw [findCRLFAux_eq_some]
  constructor
  · rintro ⟨h1, h2, h3, h4⟩; exact ⟨h1, by omega, h3, h4⟩
  · rintro ⟨h1, h2, h3, h4⟩; exact ⟨h1, by omega, h3, h4⟩

theorem findCRLF_eq_none {buf : List UInt8} {s e : Nat} :
    findCRLF buf s e = none ↔ ∀ j, s ≤ j → j < e → crlfAt buf j = false := by
  unfold findCRLF
  rw [findCRLFAux_eq_none]
  constructor
  · intro h j h1 h2; exact h j h1 (by omega)
  · intro h j h1 h2; exact h j h1 (by omega)

theorem read_line_ok_iff {buf : List UInt8} {pos : Nat} {l : List UInt8} {q : Nat} :
    read_line buf pos = .ok l q ↔
      ∃ i, pos ≤ i ∧ i + 1 < buf.length ∧ crlfAt buf i = true ∧
        (∀ j, pos ≤ j → j < i → crlfAt buf j = false) ∧
        l = (buf.take i).drop pos ∧ q = i + 2 := by
  unfold read_line
  by_cases hb : buf.length = 0
  · rw [if_pos hb]
    constructor
    · intro h; cases h
    · rintro ⟨i, -, h2, -⟩; omega
  · rw [if_neg hb]
    cases hf : findCRLF buf pos (buf.length - 1) with
    | some i =>
      rw [findCRLF_eq_some] at hf
      obtain ⟨h1, h2, h3, h4⟩ := hf
      constructor
      · intro h
        injection h with ha hq
        exact ⟨i, h1, by omega, h3, h4, ha.symm, hq.symm⟩
      · rintro ⟨i2, g1, g2, g3, g4, g5, g6⟩
        have hii : i2 = i := by
          rcases Nat.lt_trichotomy i2 i with hlt | hEq | hgt
          · have := h4 i2 g1 hlt
            rw [g3] at this
            cases this
          · exact hEq
          · have := g4 i h1 hgt
            rw [h3] at this
            cases this
        subst hii
        rw [g5, g6]
    | none =>
      rw [findCRLF_eq_none] at hf
      constructor
      · intro h; cases h
      · rintro ⟨i, g1, g2, g3, -, -⟩
        have := hf i g1 (by omega)
        rw [g3] at this
        cases this

theorem read_line_err_iff {buf : List UInt8} {pos : Nat} {e : FrameParsingError}
    {q : Nat} (hb : buf.length ≠ 0) :
    read_line buf pos = .err e q ↔
      e = .Incomplete ∧ q = pos ∧
        ∀ j, pos ≤ j → j + 1 < buf.length → crlfAt buf j = false := by
  unfold read_line
  rw [if_neg hb]
  cases hf : findCRLF buf pos (buf.length - 1) with
  | some i =>
    rw [findCRLF_eq_some] at hf
    obtain ⟨h1, h2, h3, -⟩ := hf
    constructor
    · intro h; cases h
    · rintro ⟨-, -, hall⟩
      have := hall i h1 (by omega)
      rw [h3] at this
      cases this
  | none =>
    rw [findCRLF_eq_none] at hf
    constructor
    · intro h
      injection h with h1 h2
      exact ⟨h1.symm, h2.symm, fun j hj1 hj2 => hf j hj1 (by omega)⟩
    · rintro ⟨he, hq, -⟩
      rw [he, hq]

theorem read_line_panic_iff {buf : List UInt8} {pos : Nat} :
    read_line buf pos = .panic ↔ buf.length = 0 := by
  unfold read_line
  by_cases hb : buf.length = 0
  · rw [if_pos hb]
    simp [hb]
  · rw [if_neg hb]
    cases findCRLF buf pos (buf.length - 1) with
    | some i =>
      constructor
      · intro h; cases h
      · intro h; exact absurd h hb
    | none =>
      constructor
      · intro h; cases h
      · intro h; exact absurd h hb

/-! ## Index and delimiter bookkeeping -/

theorem getD_append_right_my (l r : List UInt8) (n : Nat) (d : UInt8) :
    (l ++ r).getD (l.length + n) d = r.getD n d := by
  induction l with
  | nil => simp
  | cons a t ih =>
    rw [List.cons_append,
      show (a :: t).length + n = (t.length + n) + 1 from by simp; omega,
      List.getD_cons_succ, ih]

theorem crlfAt_cons_succ (a : UInt8) (l : List UInt8) (j : Nat) :
    crlfAt (a :: l) (j + 1) = crlfAt l j := by
  unfold crlfAt
  rw [List.getD_cons_succ, List.getD_cons_succ]

theorem crlfAt_append_left {buf : List UInt8} (ext : List UInt8) {i : Nat}
    (h : i + 1 < buf.length) : crlfAt (buf ++ ext) i = crlfAt buf i := by
  unfold crlfAt
  rw [List.getD_append buf ext 0 i (by omega), List.getD_append buf ext 0 (i + 1) h]

theorem noPair_iff {l : List UInt8} :
    noPair l = true ↔ ∀ j, j + 1 < l.length → crlfAt l j = false := by
  induction l with
  | nil =>
    constructor
    · intro _ j hj; exact absurd hj (by simp)
    · intro _; rfl
  | cons a t ih =>
    cases t with
    | nil =>
      constructor
      · intro _ j hj; exact absurd hj (by simp)
      · intro _; rfl
    | cons b t2 =>
      rw [noPair, Bool.and_eq_true, ih]
      constructor
      · rintro ⟨h1, h2⟩ j hj
        cases j with
        | zero =>
          unfold crlfAt
          rw [List.getD_cons_zero, List.getD_cons_succ, List.getD_cons_zero]
          rwa [Bool.not_eq_true'] at h1
        | succ j2 =>
          rw [crlfAt_cons_succ]
          exact h2 j2 (by simpa using hj)
      · intro hall
        refine ⟨?_, fun j hj => ?_⟩
        · have h0 := hall 0 (by simp)
          unfold crlfAt at h0
          rw [List.getD_cons_zero, List.getD_cons_succ, List.getD_cons_zero] at h0
          rwa [Bool.not_eq_true']
        · have hs := hall (j + 1) (by simpa using hj)
          rwa [crlfAt_cons_succ] at hs

theorem noPair_take {l : List UInt8} (h : noPair l = true) (n : Nat) :
    noPair (l.take n) = true := by
  rw [noPair_iff] at h ⊢
  intro j hj
  rw [List.length_take] at hj
  have e1 : (l.take n).getD j 0 = l.getD j 0 := by
    rw [List.getD_eq_getElem?_getD, List.getD_eq_getElem?_getD, List.getElem?_take,
      if_pos (by omega)]
  have e2 : (l.take n).getD (j + 1) 0 = l.getD (j + 1) 0 := by
    rw [List.getD_eq_getElem?_getD, List.getD_eq_getElem?_getD, List.getElem?_take,
      if_pos (by omega)]
  unfold crlfAt at h ⊢
  rw [e1, e2]
  exact h j (by omega)

theorem noPair_append_cr {l : List UInt8} (h : noPair l = true) :
    noPair (l ++ [13]) = true := by
  rw [noPair_iff] at h ⊢
  intro j hj
  simp only [List.length_append, List.length_cons, List.length_nil] at hj
  by_cases hjl : j + 1 < l.length
  · unfold crlfAt
    rw [List.getD_append l [13] 0 j (by omega), List.getD_append l [13] 0 (j + 1) hjl]
    exact h j hjl
  · have hj1 : j + 1 = l.length := by omega
    unfold crlfAt
    have e2 : (l ++ [13]).getD (j + 1) 0 = 13 := by
      rw [hj1, show l.length = l.length + 0 from by omega, getD_append_right_my]
      rfl
    rw [e2, show ((13 : UInt8) == 10) = false from rfl, Bool.and_false]

/-! ## Behavior of `read_line` on header-only prefixes and full headers -/

theorem read_line_incomplete_of_noPair {t : UInt8} {body : List UInt8}
    (h : noPair body = true) : read_line (t :: body) 1 = .err .Incomplete 1 := by
  rw [read_line_err_iff (by simp)]
  refine ⟨rfl, rfl, fun j hj1 hj2 => ?_⟩
  obtain ⟨j2, rfl⟩ : ∃ j2, j = j2 + 1 := ⟨j - 1, by omega⟩
  rw [crlfAt_cons_succ]
  exact noPair_iff.mp h j2 (by simpa using hj2)

theorem read_line_segment (t : UInt8) (lb rr : List UInt8) (h : noPair lb = true) :
    read_line (t :: (lb ++ 13 :: 10 :: rr)) 1 = .ok lb (lb.length + 3) := by
  rw [read_line_ok_iff]
  refine ⟨lb.length + 1, by omega, by simp, ?_, ?_, ?_, by omega⟩
  · rw [crlfAt_cons_succ]
    unfold crlfAt
    have e1 := getD_append_right_my lb (13 :: 10 :: rr) 0 0
    rw [Nat.add_zero] at e1
    have e2 := getD_append_right_my lb (13 :: 10 :: rr) 1 0
    rw [e1, e2]
    rfl
  · intro j hj1 hj2
    obtain ⟨j2, rfl⟩ : ∃ j2, j = j2 + 1 := ⟨j - 1, by omega⟩
    rw [crlfAt_cons_succ]
    have hj2l : j2 < lb.length := by omega
    by_cases hcase : j2 + 1 < lb.length
    · unfold crlfAt
      rw [List.getD_append lb (13 :: 10 :: rr) 0 j2 (by omega),
        List.getD_append lb (13 :: 10 :: rr) 0 (j2 + 1) hcase]
      exact noPair_iff.mp h j2 hcase
    · have hj1e : j2 + 1 = lb.length := by omega
      unfold crlfAt
      have e2 : (lb ++ 13 :: 10 :: rr).getD (j2 + 1) 0 = 13 := by
        rw [hj1e, show lb.length = lb.length + 0 from by omega, getD_append_right_my]
        rfl
      rw [e2, show ((13 : UInt8) == 10) = false from rfl, Bool.and_false]
  · rw [List.take_succ_cons, List.drop_succ_cons, List.drop_zero, List.take_left]

/-! ## Stability of successful reads under appending bytes -/

theorem read_u8_ok_append {buf ext : List UInt8} {pos : Nat} {b : UInt8} {q : Nat}
    (h : read_u8 buf pos = .ok b q) : read_u8 (buf ++ ext) pos = .ok b q := by
  unfold read_u8 at h ⊢
  by_cases hp : pos < buf.length
  · rw [if_pos hp] at h
    rw [if_pos (by rw [List.length_append]; omega)]
    rwa [List.getD_append buf ext 0 pos hp]
  · rw [if_neg hp] at h
    cases h

theorem read_line_ok_append {buf ext : List UInt8} {pos : Nat} {l : List UInt8}
    {q : Nat} (h : read_line buf pos = .ok l q) :
    read_line (buf ++ ext) pos = .ok l q := by
  rw [read_line_ok_iff] at h ⊢
  obtain ⟨i, h1, h2, h3, h4, h5, h6⟩ := h
  refine ⟨i, h1, by rw [List.length_append]; omega, ?_, ?_, ?_, h6⟩
  · rw [crlfAt_append_left ext h2]
    exact h3
  · intro j hj1 hj2
    rw [crlfAt_append_left ext (by omega)]
    exact h4 j hj1 hj2
  · rw [List.take_append_of_le_length (by omega)]
    exact h5

theorem read_line_simple_ok_append {buf ext : List UInt8} {pos : Nat} {s : String}
    {q : Nat} (h : read_line_simple buf pos = .ok s q) :
    read_line_simple (buf ++ ext) pos = .ok s q := by
  unfold read_line_simple at h ⊢
  cases hl : read_line buf pos with
  | ok l q2 =>
    rw [hl] at h
    rw [read_line_ok_append hl]
    exact h
  | err e q2 => rw [hl] at h; cases h
  | panic => rw [hl] at h; cases h

theorem read_i64_line_ok_append {buf ext : List UInt8} {pos : Nat} {v : Int}
    {q : Nat} (h : read_i64_line buf pos = .ok v q) :
    read_i64_line (buf ++ ext) pos = .ok v q := by
  unfold read_i64_line at h ⊢
  cases hl : read_line_simple buf pos with
  | ok s q2 =>
    rw [hl] at h
    rw [read_line_simple_ok_append hl]
    exact h
  | err e q2 => rw [hl] at h; cases h
  | panic => rw [hl] at h; cases h

theorem read_i32_line_ok_append {buf ext : List UInt8} {pos : Nat} {v : Int}
    {q : Nat} (h : read_i32_line buf pos = .ok v q) :
    read_i32_line (buf ++ ext) pos = .ok v q := by
  unfold read_i32_line at h ⊢
  cases hl : read_line_simple buf pos with
  | ok s q2 =>
    rw [hl] at h
    rw [read_line_simple_ok_append hl]
    exact h
  | err e q2 => rw [hl] at h; cases h
  | panic => rw [hl] at h; cases h

theorem read_f64_line_ok_append {buf ext : List UInt8} {pos : Nat} {s : String}
    {q : Nat} (h : read_f64_line buf pos = .ok s q) :
    read_f64_line (buf ++ ext) pos = .ok s q := by
  unfold read_f64_line at h ⊢
  cases hl : read_line_simple buf pos with
  | ok s2 q2 =>
    rw [hl] at h
    rw [read_line_simple_ok_append hl]
    exact h
  | err e q2 => rw [hl] at h; cases h
  | panic => rw [hl] at h; cases h

/-! ## Position lower bounds for successful line reads -/

theorem read_line_ok_pos {buf : List UInt8} {pos : Nat} {l : List UInt8} {q : Nat}
    (h : read_line buf pos = .ok l q) : pos + 2 ≤ q := by
  rw [read_line_ok_iff] at h
  obtain ⟨i, h1, -, -, -, -, h6⟩ := h
  omega

theorem read_line_simple_ok_elim {buf : List UInt8} {pos : Nat} {s : String}
    {q : Nat} (h : read_line_simple buf pos = .ok s q) :
    ∃ l, read_line buf pos = .ok l q ∧ utf8Decode? l = some s := by
  unfold read_line_simple at h
  cases hl : read_line buf pos with
  | ok l q2 =>
    rw [hl] at h
    have h2 : (match utf8Decode? l with
        | some s => (Outcome.ok s q2 : Outcome String)
        | none => Outcome.err (.Other "invalid frame format") q2) =
        Outcome.ok s q := h
    cases hu : utf8Decode? l with
    | some s2 =>
      rw [hu] at h2
      injection h2 with ha hb
      subst ha
      subst hb
      exact ⟨l, rfl, hu⟩
    | none => rw [hu] at h2; cases h2
  | err e q2 => rw [hl] at h; cases h
  | panic => rw [hl] at h; cases h

theorem read_i32_line_ok_elim {buf : List UInt8} {pos : Nat} {v : Int}
    {q : Nat} (h : read_i32_line buf pos = .ok v q) :
    ∃ s, read_line_simple buf pos = .ok s q ∧ i32FromStr s.data = some v := by
  unfold read_i32_line at h
  cases hl : read_line_simple buf pos with
  | ok s q2 =>
    rw [hl] at h
    have h2 : (match i32FromStr s.data with
        | some v => (Outcome.ok v q2 : Outcome Int)
        | none => Outcome.err (.Other "invalid integer format") q2) =
        Outcome.ok v q := h
    cases hv : i32FromStr s.data with
    | some v2 =>
      rw [hv] at h2
      injection h2 with ha hb
      subst ha
      subst hb
      exact ⟨s, rfl, hv⟩
    | none => rw [hv] at h2; cases h2
  | err e q2 => rw [hl] at h; cases h
  | panic => rw [hl] at h; cases h

theorem read_line_simple_ok_pos {buf : List UInt8} {pos : Nat} {s : String}
    {q : Nat} (h : read_line_simple buf pos = .ok s q) : pos + 2 ≤ q := by
  obtain ⟨l, hl, -⟩ := read_line_simple_ok_elim h
  exact read_line_ok_pos hl

theorem read_i32_line_ok_pos {buf : List UInt8} {pos : Nat} {v : Int} {q : Nat}
    (h : read_i32_line buf pos = .ok v q) : pos + 2 ≤ q := by
  obtain ⟨s, hs, -⟩ := read_i32_line_ok_elim h
  exact read_line_simple_ok_pos hs

/-! ## Parsing incomplete prefixes -/

theorem parse_header_incomplete {t : UInt8} {body : List UInt8}
    (ht : t = 43 ∨ t = 45 ∨ t = 58 ∨ t = 46 ∨ t = 36)
    (h : noPair body = true) :
    Frame.parse (t :: body) 0 = .err .Incomplete 1 := by
  have hu : read_u8 (t :: body) 0 = .ok t 1 := by
    unfold read_u8
    rw [if_pos (by simp)]
    rfl
  have hrs : read_line_simple (t :: body) 1 = .err .Incomplete 1 := by
    unfold read_line_simple
    rw [read_line_incomplete_of_noPair h]
  rcases ht with rfl | rfl | rfl | rfl | rfl <;>
    simp [Frame.parse, hu, hrs, read_i64_line, read_f64_line, read_i32_line]

theorem bulk_header_then_incomplete (lenBody payload rr : List UInt8)
    (h1 : noPair lenBody = true)
    (h2 : i32Line lenBody = some (payload.length : Int))
    (hrr : rr.length < payload.length + 2) :
    Frame.parse (36 :: (lenBody ++ 13 :: 10 :: rr)) 0 =
      .err .Incomplete (lenBody.length + 3) := by
  have hu : read_u8 (36 :: (lenBody ++ 13 :: 10 :: rr)) 0 = .ok 36 1 := by
    unfold read_u8
    rw [if_pos (by simp)]
    rfl
  have hrl := read_line_segment 36 lenBody rr h1
  obtain ⟨s, hs, hv⟩ : ∃ s, utf8Decode? lenBody = some s ∧
      i32FromStr s.data = some (payload.length : Int) := by
    unfold i32Line at h2
    cases hu2 : utf8Decode? lenBody with
    | none => rw [hu2] at h2; cases h2
    | some s => rw [hu2] at h2; exact ⟨s, rfl, h2⟩
  have hrs : read_line_simple (36 :: (lenBody ++ 13 :: 10 :: rr)) 1 =
      .ok s (lenBody.length + 3) := by
    unfold read_line_simple
    simp only [hrl, hs]
  have hri : read_i32_line (36 :: (lenBody ++ 13 :: 10 :: rr)) 1 =
      .ok (payload.length : Int) (lenBody.length + 3) := by
    unfold read_i32_line
    simp only [hrs, hv]
  have hcond : (36 :: (lenBody ++ 13 :: 10 :: rr)).length <
      lenBody.length + 3 + (payload.length : Int).toNat + 2 := by
    rw [Int.toNat_natCast]
    simp only [List.length_cons, List.length_append]
    omega
  simp only [Frame.parse, hu, hri]
  rw [if_pos trivial, if_pos (Int.natCast_nonneg payload.length), if_pos hcond,
    if_neg (by decide), if_neg (by decide), if_neg (by decide), if_neg (by decide)]

theorem prefix_incomplete_of_line_frame {t : UInt8} {body : List UInt8}
    (ht : t = 43 ∨ t = 45 ∨ t = 58 ∨ t = 46 ∨ t = 36)
    (h : noPair body = true) {k : Nat} (hk : k < (t :: (body ++ [13, 10])).length) :
    (Frame.parse ((t :: (body ++ [13, 10])).take k) 0).isIncomplete = true := by
  cases k with
  | zero =>
    rw [List.take_zero]
    decide
  | succ j =>
    rw [List.take_succ_cons]
    have hj : j ≤ body.length + 1 := by
      simp only [List.length_cons, List.length_append, List.length_nil] at hk
      omega
    have hnp : noPair ((body ++ [13, 10]).take j) = true := by
      by_cases hc : j ≤ body.length
      · rw [List.take_append_of_le_length hc]
        exact noPair_take h j
      · have hj1 : j = body.length + 1 := by omega
        subst hj1
        rw [List.take_append_eq_append_take, List.take_of_length_le (by omega),
          show body.length + 1 - body.length = 1 from by omega,
          show ([13, 10] : List UInt8).take 1 = [13] from rfl]
        exact noPair_append_cr h
    rw [parse_header_incomplete ht hnp]
    rfl

theorem bulk_prefix_incomplete {lenBody payload : List UInt8}
    (h1 : noPair lenBody = true)
    (h2 : i32Line lenBody = some (payload.length : Int))
    {k : Nat} (hk : k < (36 :: (lenBody ++ 13 :: 10 :: (payload ++ [13, 10]))).length) :
    (Frame.parse ((36 :: (lenBody ++ 13 :: 10 :: (payload ++ [13, 10]))).take k)
      0).isIncomplete = true := by
  cases k with
  | zero =>
    rw [List.take_zero]
    decide
  | succ j =>
    rw [List.take_succ_cons]
    have hkj : j < lenBody.length + 2 + (payload.length + 2) := by
      simp only [List.length_cons, List.length_append, List.length_nil] at hk
      omega
    by_cases hc : j ≤ lenBody.length + 1
    · have hnp : noPair ((lenBody ++ 13 :: 10 :: (payload ++ [13, 10])).take j) = true := by
        by_cases hc2 : j ≤ lenBody.length
        · rw [List.take_append_of_le_length hc2]
          exact noPair_take h1 j
        · have hj1 : j = lenBody.length + 1 := by omega
          subst hj1
          rw [List.take_append_eq_append_take, List.take_of_length_le (by omega),
            show lenBody.length + 1 - lenBody.length = 1 from by omega,
            show (13 :: 10 :: (payload ++ [13, 10])).take 1 = [13] from rfl]
          exact noPair_append_cr h1
      rw [parse_header_incomplete (Or.inr (Or.inr (Or.inr (Or.inr rfl)))) hnp]
      rfl
    · obtain ⟨m, hm⟩ : ∃ m, j = lenBody.length + 2 + m := ⟨j - lenBody.length - 2, by omega⟩
      subst hm
      have hXj : (lenBody ++ 13 :: 10 :: (payload ++ [13, 10])).take
          (lenBody.length + 2 + m) =
          lenBody ++ 13 :: 10 :: ((payload ++ [13, 10]).take m) := by
        rw [List.take_append_eq_append_take, List.take_of_length_le (by omega),
          show lenBody.length + 2 + m - lenBody.length = m + 1 + 1 from by omega,
          List.take_succ_cons, List.take_succ_cons]
      rw [hXj]
      have hrr2 : ((payload ++ [13, 10]).take m).length < payload.length + 2 := by
        rw [List.length_take]
        simp only [List.length_append, List.length_cons, List.length_nil]
        omega
      have hb := bulk_header_then_incomplete lenBody payload ((payload ++ [13, 10]).take m)
        h1 h2 hrr2
      rw [hb]
      rfl

/-! ## Dispatch lemmas: `Frame.parse` after a known tag byte -/

theorem parse_eq_simple (buf : List UInt8) (pos : Nat)
    (h : read_u8 buf pos = .ok 43 (pos + 1)) :
    Frame.parse buf pos =
      (match read_line_simple buf (pos + 1) with
        | .ok s q => .ok (.Simple s) q
        | .err e q => .err e q
        | .panic => .panic) := by
  simp only [Frame.parse, h]
  rw [if_pos trivial]

theorem parse_eq_error (buf : List UInt8) (pos : Nat)
    (h : read_u8 buf pos = .ok 45 (pos + 1)) :
    Frame.parse buf pos =
      (match read_line_simple buf (pos + 1) with
        | .ok s q => .ok (.Error s) q
        | .err e q => .err e q
        | .panic => .panic) := by
  simp only [Frame.parse, h]
  rw [if_neg (by decide), if_pos trivial]

theorem parse_eq_integer (buf : List UInt8) (pos : Nat)
    (h : read_u8 buf pos = .ok 58 (pos + 1)) :
    Frame.parse buf pos =
      (match read_i64_line buf (pos + 1) with
        | .ok v q => .ok (.Integer v) q
        | .err e q => .err e q
        | .panic => .panic) := by
  simp only [Frame.parse, h]
  rw [if_neg (by decide), if_neg (by decide), if_pos trivial]

theorem parse_eq_double (buf : List UInt8) (pos : Nat)
    (h : read_u8 buf pos = .ok 46 (pos + 1)) :
    Frame.parse buf pos =
      (match read_f64_line buf (pos + 1) with
        | .ok s q => .ok (.Double s) q
        | .err e q => .err e q
        | .panic => .panic) := by
  simp only [Frame.parse, h]
  rw [if_neg (by decide), if_neg (by decide), if_neg (by decide), if_pos trivial]

theorem parse_eq_bulk (buf : List UInt8) (pos : Nat)
    (h : read_u8 buf pos = .ok 36 (pos + 1)) :
    Frame.parse buf pos =
      (match read_i32_line buf (pos + 1) with
        | .err e q => .err e q
        | .panic => .panic
        | .ok size q =>
          if 0 ≤ size then
            if buf.length < q + size.toNat + 2 then .err .Incomplete q
            else .ok (.Bulk ((buf.take (q + size.toNat)).drop q)) (q + size.toNat + 2)
          else if size = -1 then .ok .Null q
          else .err (.Other "invalid bulk string size") q) := by
  simp only [Frame.parse, h]
  rw [if_neg (by decide), if_neg (by decide), if_neg (by decide), if_neg (by decide),
    if_pos trivial]

/-! ## Claim theorems -/

/-- C1: the claim says `Frame::parse` never panics and fails with a typed
"unsupported frame type" error on the reserved tags `*`, `#`, `(`, `!`,
`=`, `%`, `|`, `>` and on any other unsupported tag byte. The code
instead hits `todo!()` on every one of these tags, which panics: each of
the following buffers makes `Frame.parse` panic (the last one uses the
unreserved tag `a`). -/
theorem c1_reserved_tags_panic :
    Frame.parse [42, 13, 10] 0 = .panic ∧ Frame.parse [35, 13, 10] 0 = .panic ∧
    Frame.parse [40, 13, 10] 0 = .panic ∧ Frame.parse [33, 13, 10] 0 = .panic ∧
    Frame.parse [61, 13, 10] 0 = .panic ∧ Frame.parse [37, 13, 10] 0 = .panic ∧
    Frame.parse [124, 13, 10] 0 = .panic ∧ Frame.parse [62, 13, 10] 0 = .panic ∧
    Frame.parse [97, 13, 10] 0 = .panic := by
  decide

/-- C2 counterexample: on the buffer `$0\r\nXY` the decoder successfully
returns `Bulk []` and advances to position 6 even though the two bytes
immediately following the (empty) payload are `X`, `Y` and not the
delimiter — refuting the claim that the two bytes following a decoded
Bulk payload are always `\r\n`. -/
theorem c2_bulk_delimiter_cex :
    Frame.parse [36, 48, 13, 10, 88, 89] 0 = .ok (.Bulk []) 6 ∧
      ¬([36, 48, 13, 10, 88, 89].getD 4 (0 : UInt8) = 13 ∧
        [36, 48, 13, 10, 88, 89].getD 5 (0 : UInt8) = 10) := by
  decide

/-- C2 (amended): when the tag is `$` and the length line parses to
`n ≥ 0` with the buffer holding at least `n + 2` further bytes,
`Frame::parse` returns a Bulk whose payload is exactly the `n` bytes
following the length line (so its length is `n`), with the final
position two bytes past the payload; those two bytes are consumed but
not validated to be the delimiter and are not stored in the payload. -/
theorem c2_bulk_payload_exact (buf : List UInt8) (pos : Nat) (n : Int) (p2 : Nat)
    (h1 : read_u8 buf pos = .ok 36 (pos + 1))
    (h2 : read_i32_line buf (pos + 1) = .ok n p2)
    (h3 : 0 ≤ n)
    (h4 : p2 + n.toNat + 2 ≤ buf.length) :
    Frame.parse buf pos =
      .ok (.Bulk ((buf.take (p2 + n.toNat)).drop p2)) (p2 + n.toNat + 2) ∧
      ((buf.take (p2 + n.toNat)).drop p2).length = n.toNat := by
  constructor
  · rw [parse_eq_bulk buf pos h1]
    simp only [h2]
    rw [if_pos h3, if_neg (by omega)]
  · rw [List.length_drop, List.length_take]
    have h5 := read_i32_line_ok_pos h2
    omega

/-- Witness for C2: `$5\r\nhello\r\n` decodes to `Bulk "hello"` ending at
position 11, and the payload has the declared length 5. -/
theorem c2_bulk_payload_exact_witness :
    Frame.parse [36, 53, 13, 10, 104, 101, 108, 108, 111, 13, 10] 0 =
      .ok (.Bulk (([36, 53, 13, 10, 104, 101, 108, 108, 111, 13, 10].take (4 + (5 : Int).toNat)).drop 4))
        (4 + (5 : Int).toNat + 2) ∧
      (([36, 53, 13, 10, 104, 101, 108, 108, 111, 13, 10].take (4 + (5 : Int).toNat)).drop 4).length =
        (5 : Int).toNat :=
  c2_bulk_payload_exact [36, 53, 13, 10, 104, 101, 108, 108, 111, 13, 10] 0 5 4
    (by decide) (by decide) (by decide) (by decide)

/-- C4: a complete but structurally invalid line yields an `Other`
(format) error, never `Incomplete`: non-UTF-8 bytes in a Simple or Error
line give `"invalid frame format"`; a non-numeric Integer line gives
`"invalid integer format"`; a Double line outside the float grammar
gives `"invalid double format"`; a Bulk length line parsing to `n ≤ -2`
gives `"invalid bulk string size"`. -/
theorem c4_invalid_line_format_error (buf : List UInt8) (pos : Nat)
    (l : List UInt8) (q : Nat) (hl : read_line buf (pos + 1) = .ok l q) :
    (read_u8 buf pos = .ok 43 (pos + 1) → utf8Decode? l = none →
      Frame.parse buf pos = .err (.Other "invalid frame format") q) ∧
    (read_u8 buf pos = .ok 45 (pos + 1) → utf8Decode? l = none →
      Frame.parse buf pos = .err (.Other "invalid frame format") q) ∧
    (∀ s, read_u8 buf pos = .ok 58 (pos + 1) → utf8Decode? l = some s →
      i64FromStr s.data = none →
      Frame.parse buf pos = .err (.Other "invalid integer format") q) ∧
    (∀ s, read_u8 buf pos = .ok 46 (pos + 1) → utf8Decode? l = some s →
      isValidF64Text s.data = false →
      Frame.parse buf pos = .err (.Other "invalid double format") q) ∧
    (∀ s n, read_u8 buf pos = .ok 36 (pos + 1) → utf8Decode? l = some s →
      i32FromStr s.data = some n → n ≤ -2 →
      Frame.parse buf pos = .err (.Other "invalid bulk string size") q) := by
  refine ⟨?_, ?_, ?_, ?_, ?_⟩
  · intro h1 h2
    rw [parse_eq_simple buf pos h1]
    unfold read_line_simple
    simp only [hl, h2]
  · intro h1 h2
    rw [parse_eq_error buf pos h1]
    unfold read_line_simple
    simp only [hl, h2]
  · intro s h1 h2 h3
    rw [parse_eq_integer buf pos h1]
    unfold read_i64_line read_line_simple
    simp only [hl, h2, h3]
  · intro s h1 h2 h3
    rw [parse_eq_double buf pos h1]
    unfold read_f64_line read_line_simple
    simp only [hl, h2, h3]
    rw [if_neg Bool.false_ne_true]
  · intro s n h1 h2 h3 h4
    rw [parse_eq_bulk buf pos h1]
    unfold read_i32_line read_line_simple
    simp only [hl, h2, h3]
    rw [if_neg (by omega), if_neg (by omega)]

/-- Witness for C4: one concrete buffer per invalid-line shape, each
producing the corresponding format error. -/
theorem c4_invalid_line_format_error_witness :
    Frame.parse [43, 255, 13, 10] 0 = .err (.Other "invalid frame format") 4 ∧
    Frame.parse [45, 255, 13, 10] 0 = .err (.Other "invalid frame format") 4 ∧
    Frame.parse [58, 97, 98, 13, 10] 0 = .err (.Other "invalid integer format") 5 ∧
    Frame.parse [46, 115, 116, 114, 13, 10] 0 = .err (.Other "invalid double format") 6 ∧
    Frame.parse [36, 45, 50, 13, 10] 0 = .err (.Other "invalid bulk string size") 5 :=
  ⟨(c4_invalid_line_format_error [43, 255, 13, 10] 0 [255] 4 (by decide)).1
      (by decide) (by decide),
   (c4_invalid_line_format_error [45, 255, 13, 10] 0 [255] 4 (by decide)).2.1
      (by decide) (by decide),
   (c4_invalid_line_format_error [58, 97, 98, 13, 10] 0 [97, 98] 5 (by decide)).2.2.1
      "ab" (by decide) (by decide) (by decide),
   (c4_invalid_line_format_error [46, 115, 116, 114, 13, 10] 0 [115, 116, 114] 6
      (by decide)).2.2.2.1 "str" (by decide) (by decide) (by decide),
   (c4_invalid_line_format_error [36, 45, 50, 13, 10] 0 [45, 50] 5
      (by decide)).2.2.2.2 "-2" (-2) (by decide) (by decide) (by decide) (by decide)⟩

/-- C5: for a Bulk frame whose length line parsed to `n ≥ 0`, if the
buffer holds fewer than `n + 2` bytes after the end of the length line,
`Frame::parse` fails with `Incomplete` reported at the position `p2`
just past the length line — the tag byte and the length line have
already been consumed (`pos + 3 ≤ p2`) and this consumption is not
rolled back. -/
theorem c5_bulk_incomplete_after_header (buf : List UInt8) (pos : Nat) (n : Int)
    (p2 : Nat)
    (h1 : read_u8 buf pos = .ok 36 (pos + 1))
    (h2 : read_i32_line buf (pos + 1) = .ok n p2)
    (h3 : 0 ≤ n)
    (h4 : buf.length < p2 + n.toNat + 2) :
    Frame.parse buf pos = .err .Incomplete p2 ∧ pos + 3 ≤ p2 := by
  constructor
  · rw [parse_eq_bulk buf pos h1]
    simp only [h2]
    rw [if_pos h3, if_pos h4]
  · have h5 := read_i32_line_ok_pos h2
    omega

/-- Witness for C5: `$10\r\nnotenough\r\n` (16 bytes, 11 available after
the length line where 12 are needed) fails with `Incomplete` at position
5, past the consumed header. -/
theorem c5_bulk_incomplete_after_header_witness :
    Frame.parse [36, 49, 48, 13, 10, 110, 111, 116, 101, 110, 111, 117, 103, 104, 13, 10]
        0 = .err .Incomplete 5 ∧ 0 + 3 ≤ 5 :=
  c5_bulk_incomplete_after_header
    [36, 49, 48, 13, 10, 110, 111, 116, 101, 110, 111, 117, 103, 104, 13, 10] 0 10 5
    (by decide) (by decide) (by decide) (by decide)

/-- C9: the Bulk length line is parsed as a signed 32-bit integer: a
well-formed decimal whose value lies outside `[-2^31, 2^31 - 1]` makes
`Frame::parse` fail with the `"invalid integer format"` format error
(never `Incomplete`, never a Bulk frame). -/
theorem c9_bulk_length_i32_range (buf : List UInt8) (pos : Nat) (l : List UInt8)
    (q : Nat) (s : String) (v : Int)
    (h1 : read_u8 buf pos = .ok 36 (pos + 1))
    (h2 : read_line buf (pos + 1) = .ok l q)
    (h3 : utf8Decode? l = some s)
    (h4 : parseSignDigits s.data = some v)
    (h5 : v < -2147483648 ∨ 2147483647 < v) :
    Frame.parse buf pos = .err (.Other "invalid integer format") q := by
  have hi32 : i32FromStr s.data = none := by
    unfold i32FromStr intFromStrRange
    simp only [h4]
    rw [if_neg (by omega)]
  rw [parse_eq_bulk buf pos h1]
  unfold read_i32_line read_line_simple
  simp only [h2, h3, hi32]

/-- Witness for C9: `$2147483648\r\n` — the length is one past `i32::MAX`
— fails with `"invalid integer format"` at position 13. -/
theorem c9_bulk_length_i32_range_witness :
    Frame.parse [36, 50, 49, 52, 55, 52, 56, 51, 54, 52, 56, 13, 10] 0 =
      .err (.Other "invalid integer format") 13 :=
  c9_bulk_length_i32_range [36, 50, 49, 52, 55, 52, 56, 51, 54, 52, 56, 13, 10] 0
    [50, 49, 52, 55, 52, 56, 51, 54, 52, 56] 13 "2147483648" 2147483648
    (by decide) (by decide) (by decide) (by decide) (by decide)

/-- C8: edge cases. `+\r\n` and `-\r\n` decode to `Simple ""` and
`Error ""` (not an error); `$0\r\n\r\n` decodes to `Bulk []`, which is a
different value from `Null`; `$-1\r\n` and `_\r\n` decode to `Null`. -/
theorem c8_edge_cases :
    Frame.parse [43, 13, 10] 0 = .ok (.Simple "") 3 ∧
    Frame.parse [45, 13, 10] 0 = .ok (.Error "") 3 ∧
    Frame.parse [36, 48, 13, 10, 13, 10] 0 = .ok (.Bulk []) 6 ∧
    Frame.Bulk [] ≠ Frame.Null ∧
    Frame.parse [36, 45, 49, 13, 10] 0 = .ok .Null 5 ∧
    Frame.parse [95, 13, 10] 0 = .ok .Null 1 := by
  decide

/-- C10: parsing the bare Null frame `_\r\n` advances the position by
exactly one byte — only the tag is consumed — so a following decode
would start at the unconsumed `\r` (byte 13). -/
theorem c10_null_tag_position :
    Frame.parse [95, 13, 10] 0 = .ok .Null 1 ∧
      [95, 13, 10].getD 1 (0 : UInt8) = 13 := by
  decide

/-- C6 counterexample: on the empty buffer `read_line` panics
(`buf.get_ref().len() - 1` underflows in debug builds; the subsequent
indexing is out of bounds in release builds) instead of returning
`Incomplete` — refuting the claim for "every buffer". -/
theorem c6_read_line_empty_cex : read_line [] 0 = .panic := by
  decide

/-- C6 (amended): for every NON-EMPTY buffer and every position,
`read_line` never panics, and either finds the first delimiter
occurrence `i` at or after the position — returning exactly the bytes
strictly between the position and `i` (which therefore contain no
delimiter) and advancing the position to `i + 2` — or, when no
delimiter lies fully inside the buffer at or after the position, fails
with `Incomplete` leaving the position unchanged. -/
theorem c6_read_line_behavior (buf : List UInt8) (pos : Nat) (hne : buf ≠ []) :
    read_line buf pos ≠ .panic ∧
    (∀ l q, read_line buf pos = .ok l q →
      ∃ i, pos ≤ i ∧ i + 1 < buf.length ∧ crlfAt buf i = true ∧
        (∀ j, pos ≤ j → j < i → crlfAt buf j = false) ∧
        l = (buf.take i).drop pos ∧ noPair l = true ∧ q = i + 2) ∧
    (∀ e q, read_line buf pos = .err e q →
      e = .Incomplete ∧ q = pos ∧
        ∀ j, pos ≤ j → j + 1 < buf.length → crlfAt buf j = false) := by
  have hlen : buf.length ≠ 0 := fun h => hne (List.length_eq_zero.mp h)
  refine ⟨?_, ?_, ?_⟩
  · rw [Ne, read_line_panic_iff]
    exact hlen
  · intro l q h
    rw [read_line_ok_iff] at h
    obtain ⟨i, h1, h2, h3, h4, h5, h6⟩ := h
    refine ⟨i, h1, h2, h3, h4, h5, ?_, h6⟩
    subst h5
    rw [noPair_iff]
    intro j hj
    have hlength : ((buf.take i).drop pos).length = i - pos := by
      rw [List.length_drop, List.length_take]
      omega
    rw [hlength] at hj
    have e1 : ((buf.take i).drop pos).getD j 0 = buf.getD (pos + j) 0 := by
      rw [List.getD_eq_getElem?_getD, List.getElem?_drop, List.getElem?_take,
        if_pos (by omega), ← List.getD_eq_getElem?_getD]
    have e2 : ((buf.take i).drop pos).getD (j + 1) 0 = buf.getD (pos + (j + 1)) 0 := by
      rw [List.getD_eq_getElem?_getD, List.getElem?_drop, List.getElem?_take,
        if_pos (by omega), ← List.getD_eq_getElem?_getD]
    unfold crlfAt
    rw [e1, e2]
    have h7 := h4 (pos + j) (by omega) (by omega)
    unfold crlfAt at h7
    rw [show pos + j + 1 = pos + (j + 1) from by omega] at h7
    exact h7
  · intro e q h
    exact (read_line_err_iff hlen).mp h

/-- Witness for C6: applying the amended theorem at `+OK\r\n`, position 1:
the scan does not panic there. -/
theorem c6_read_line_behavior_witness :
    read_line [43, 79, 75, 13, 10] 1 ≠ .panic :=
  (c6_read_line_behavior [43, 79, 75, 13, 10] 1 (by decide)).1

/-- C3 counterexample: `_\r\n` is a complete, valid frame encoding, yet
its strict one-byte prefix `_` already parses successfully to `Null`
(final position 1) instead of yielding `Incomplete` — the code never
consumes the trailing `\r\n` of a bare Null frame. -/
theorem c3_null_prefix_cex :
    ValidFrameEncoding [95, 13, 10] ∧
      Frame.parse ([95, 13, 10].take 1) 0 = .ok .Null 1 ∧
      (Frame.parse ([95, 13, 10].take 1) 0).isIncomplete = false :=
  ⟨.nullBare, by decide, by decide⟩

/-- C3 (amended): for every complete, valid frame encoding other than the
bare-Null frame `_\r\n`, parsing any strict prefix from position 0 yields
the `Incomplete` error — never a decoded frame and never a format error.
(For `_\r\n` itself the strict prefixes `_` and `_\r` decode successfully
to `Null`; see the counterexample.) -/
theorem c3_strict_prefix_incomplete (e : List UInt8) (he : ValidFrameEncoding e)
    (hne : e ≠ [95, 13, 10]) (k : Nat) (hk : k < e.length) :
    (Frame.parse (e.take k) 0).isIncomplete = true := by
  cases he with
  | simple body hnp hutf =>
    exact prefix_incomplete_of_line_frame (Or.inl rfl) hnp hk
  | error body hnp hutf =>
    exact prefix_incomplete_of_line_frame (Or.inr (Or.inl rfl)) hnp hk
  | integer body hnp hok =>
    exact prefix_incomplete_of_line_frame (Or.inr (Or.inr (Or.inl rfl))) hnp hk
  | double body hnp hok =>
    exact prefix_incomplete_of_line_frame (Or.inr (Or.inr (Or.inr (Or.inl rfl)))) hnp hk
  | bulk lenBody payload hnp hlen =>
    exact bulk_prefix_incomplete hnp hlen hk
  | nullDollar =>
    have hk5 : k < 5 := by simpa using hk
    interval_cases k <;> decide
  | nullBare =>
    exact absurd rfl hne

/-- Witness for C3: the strict 3-byte prefix `+OK` of the valid encoding
`+OK\r\n` parses to `Incomplete`. -/
theorem c3_strict_prefix_incomplete_witness :
    (Frame.parse ([43, 79, 75, 13, 10].take 3) 0).isIncomplete = true :=
  c3_strict_prefix_incomplete [43, 79, 75, 13, 10]
    (.simple [79, 75] (by decide) (by decide)) (by decide) 3 (by decide)

/-- C7: `Frame.parse` is a pure function of the buffer and the position —
repeating a call trivially returns an equal result — and every
successful parse is stable under extending the buffer with further
bytes: parsing the extended buffer from the same position returns the
same frame and the same final position. -/
theorem c7_parse_extension (buf ext : List UInt8) (pos : Nat) (f : Frame) (q : Nat)
    (h : Frame.parse buf pos = .ok f q) :
    Frame.parse (buf ++ ext) pos = .ok f q := by
  unfold Frame.parse at h ⊢
  cases hu : read_u8 buf pos with
  | err e p => rw [hu] at h; cases h
  | panic => rw [hu] at h; cases h
  | ok b p =>
    simp only [hu] at h
    simp only [read_u8_ok_append hu]
    by_cases hb1 : b = 43
    · rw [if_pos hb1] at h ⊢
      cases hs : read_line_simple buf p with
      | ok s q2 =>
        rw [hs] at h
        rw [read_line_simple_ok_append hs]
        exact h
      | err e q2 => rw [hs] at h; cases h
      | panic => rw [hs] at h; cases h
    · rw [if_neg hb1] at h ⊢
      by_cases hb2 : b = 45
      · rw [if_pos hb2] at h ⊢
        cases hs : read_line_simple buf p with
        | ok s q2 =>
          rw [hs] at h
          rw [read_line_simple_ok_append hs]
          exact h
        | err e q2 => rw [hs] at h; cases h
        | panic => rw [hs] at h; cases h
      · rw [if_neg hb2] at h ⊢
        by_cases hb3 : b = 58
        · rw [if_pos hb3] at h ⊢
          cases hs : read_i64_line buf p with
          | ok v q2 =>
            rw [hs] at h
            rw [read_i64_line_ok_append hs]
            exact h
          | err e q2 => rw [hs] at h; cases h
          | panic => rw [hs] at h; cases h
        · rw [if_neg hb3] at h ⊢
          by_cases hb4 : b = 46
          · rw [if_pos hb4] at h ⊢
            cases hs : read_f64_line buf p with
            | ok s q2 =>
              rw [hs] at h
              rw [read_f64_line_ok_append hs]
              exact h
            | err e q2 => rw [hs] at h; cases h
            | panic => rw [hs] at h; cases h
          · rw [if_neg hb4] at h ⊢
            by_cases hb5 : b = 36
            · rw [if_pos hb5] at h ⊢
              cases hi : read_i32_line buf p with
              | err e q2 => rw [hi] at h; cases h
              | panic => rw [hi] at h; cases h
              | ok size q2 =>
                simp only [hi] at h
                simp only [read_i32_line_ok_append hi]
                by_cases hsz : 0 ≤ size
                · rw [if_pos hsz] at h ⊢
                  by_cases hlv : buf.length < q2 + size.toNat + 2
                  · rw [if_pos hlv] at h; cases h
                  · rw [if_neg hlv] at h
                    rw [if_neg (show ¬(buf ++ ext).length < q2 + size.toNat + 2 from by
                      rw [List.length_append]; omega)]
                    rw [List.take_append_of_le_length
                      (show q2 + size.toNat ≤ buf.length from by omega)]
                    exact h
                · rw [if_neg hsz] at h ⊢
                  by_cases hm1 : size = -1
                  · rw [if_pos hm1] at h ⊢
                    exact h
                  · rw [if_neg hm1] at h; cases h
            · rw [if_neg hb5] at h ⊢
              by_cases hb6 : b = 95
              · rw [if_pos hb6] at h ⊢
                exact h
              · rw [if_neg hb6] at h; cases h

/-- Witness for C7: `+OK\r\n` parses to `Simple "OK"` at position 5, and
appending the bytes `$5` leaves the result unchanged. -/
theorem c7_parse_extension_witness :
    Frame.parse ([43, 79, 75, 13, 10] ++ [36, 53]) 0 = .ok (.Simple "OK") 5 :=
  c7_parse_extension [43, 79, 75, 13, 10] [36, 53] 0 (.Simple "OK") 5 (by decide)

end Yarrs
